import Mathlib

/-!
Shallow embedding of the Shark BLAS kernel layer:
  - src/include/shark/LinAlg/BLAS/kernels/trsv.hpp
    (the kernels::trsv dispatcher with its SIZE_CHECK preconditions and
    the default has_optimized_trsv capability trait), and
  - src/include/shark/LinAlg/BLAS/kernels/clblas/matrix_assign.hpp
    (the GPU matrix-assignment kernels: the same-layout row-major/row-major
    elementwise kernel, the cross-layout row-major/column-major tiled
    kernel, and the plain-assignment entry points built on detail::assigner).

Matrices and vectors are modelled as sizes plus total element functions.
The GPU kernels are modelled operationally: the generated kernel performs
one write per (work-item, loop-iteration), and an enqueued 2-D grid is the
list of all its work-items; the final contents of a buffer is the fold of
all those writes over the initial contents.  The substitution algorithm of
default/trsv.hpp is not part of the source fragment and is modelled from
the specification text.
-/

set_option maxRecDepth 100000

namespace Shark

/-- A dense matrix expression: row count `size1`, column count `size2`, and a
total element accessor, mirroring `size1()`, `size2()` and `operator()` of
the C++ matrix-expression interface. -/
structure Mat (α : Type) where
  size1 : ℕ
  size2 : ℕ
  entry : ℕ → ℕ → α

/-- A dense vector expression: length `size` plus a total element accessor. -/
structure Vec (α : Type) where
  size : ℕ
  entry : ℕ → α

/-! ## Triangular solve (trsv) -/

/-- Dot product of row `i` of `A` with the vector state `b`, taken over the
column indices `js`. -/
def dotRange (A : Mat ℚ) (b : ℕ → ℚ) (i : ℕ) (js : List ℕ) : ℚ :=
  (js.map (fun j => A.entry i j * b j)).sum

/-- Column indices `0..i)` used by the lower-triangular (Upper=false) row
update. -/
def belowIdx (i : ℕ) : List ℕ := List.range i

/-- Column indices `i+1..n)` used by the upper-triangular (Upper=true) row
update. -/
def aboveIdx (n i : ℕ) : List ℕ := List.range' (i + 1) (n - (i + 1))

/-- Modelled from the spec: one row update of the default substitution
algorithm of default/trsv.hpp (the file itself is not part of the source
fragment).  For row `i`, subtract the dot product of the already-resolved
entries (`b[0..i)` for Upper=false, `b(i+1..n)` for Upper=true) weighted by
the matching entries of row `i` of `A` from `b[i]`; then, unless Unit,
divide by the diagonal entry `A[i][i]`. -/
def trsvRowStep (Upper Unit : Bool) (A : Mat ℚ) (n : ℕ) (b : ℕ → ℚ) (i : ℕ) :
    ℕ → ℚ :=
  let js := if Upper then aboveIdx n i else belowIdx i
  let s := b i - dotRange A b i js
  let v := if Unit then s else s / A.entry i i
  fun j => if j = i then v else b j

/-- Modelled from the spec: the row-processing order of the default
substitution algorithm — increasing row index for Upper=false, decreasing
row index for Upper=true. -/
def rowOrder (Upper : Bool) (n : ℕ) : List ℕ :=
  if Upper then (List.range n).reverse else List.range n

/-- Modelled from the spec: the default triangular substitution algorithm of
default/trsv.hpp, i.e. the overload of bindings::trsv selected by the false
dispatch tag.  It processes the rows in `rowOrder` and applies
`trsvRowStep` at each one, mutating `b` in place (modelled as returning the
final vector state). -/
def trsvDefault (Upper Unit : Bool) (A : Mat ℚ) (b : Vec ℚ) : Vec ℚ :=
  ⟨b.size, (rowOrder Upper b.size).foldl (trsvRowStep Upper Unit A b.size) b.entry⟩

/-- The capability trait of trsv.hpp: with no optimized binding included
(no SHARK_USE_CBLAS), `has_optimized_trsv` derives from boost::mpl::false_
for every pair of concrete expression types. -/
def has_optimized_trsv (MatA V : Type) : Bool := false

/-- Outcome of a kernels-layer call that guards its work with SIZE_CHECK:
`errored` records that a fail-fast precondition error was raised, and `b`
is the state of the output vector afterwards (unchanged when the error
fired before any work was dispatched). -/
structure TrsvOut where
  errored : Bool
  b : Vec ℚ

/-- The kernels::trsv dispatcher of trsv.hpp: first
`SIZE_CHECK(A().size1() == A().size2())`, then
`SIZE_CHECK(A().size1() == b().size())`, and only then the dispatch
`bindings::trsv<Upper,Unit>(A, b, has_optimized_trsv<MatA,V>::type())`;
since the trait is false, the call resolves to the default substitution
algorithm. -/
def trsv (Upper Unit : Bool) (A : Mat ℚ) (b : Vec ℚ) : TrsvOut :=
  if A.size1 = A.size2 then
    if A.size1 = b.size then
      ⟨false, trsvDefault Upper Unit A b⟩
    else ⟨true, b⟩
  else ⟨true, b⟩

/-! ## GPU matrix assignment: shared write-list machinery -/

/-- Apply a list of element writes `(row, column, value)` to a 2-D buffer
state, later writes overriding earlier ones. -/
def applyWrites {α : Type} (ws : List (ℕ × ℕ × α)) (g : ℕ → ℕ → α) :
    ℕ → ℕ → α :=
  ws.foldl (fun g w => fun i j => if i = w.1 ∧ j = w.2.1 then w.2.2 else g i j) g

/-- All points of a 2-D work grid of extent `n1 × n2`: the work-items spawned
by enqueuing a kernel with that work size. -/
def gridItems (n1 n2 : ℕ) : List (ℕ × ℕ) :=
  (List.range n1).flatMap (fun i => (List.range n2).map (fun j => (i, j)))

/-! ## Same-layout (row-major, row-major) assignment kernel -/

/-- The global work size enqueued by the row-major/row-major
matrix_assign_functor kernel: `{rows, cols}` of the destination. -/
def global_work_size_rr {α : Type} (m : Mat α) : ℕ × ℕ :=
  (m.size1, m.size2)

/-- The row-major/row-major overload of matrix_assign_functor: each
work-item `(get_global_id(0), get_global_id(1))` of the enqueued
`{rows, cols}` grid performs the single write
`m(row, col) = f(m(row, col), e(row, col))`. -/
def matrix_assign_functor_rr {α : Type} (f : α → α → α) (m e : Mat α) : Mat α :=
  let ws := (gridItems (global_work_size_rr m).1 (global_work_size_rr m).2).map
    (fun p => (p.1, p.2, f (m.entry p.1 p.2) (e.entry p.1 p.2)))
  ⟨m.size1, m.size2, applyWrites ws m.entry⟩

/-! ## Cross-layout (row-major, column-major) tiled assignment kernel -/

/-- Tile side of the cross-layout kernel. -/
def TILE_DIM : ℕ := 32

/-- Number of parallel threads reading a column in the cross-layout kernel;
a divisor of TILE_DIM. -/
def BLOCK_COLS : ℕ := 8

/-- The local work size enqueued by the cross-layout kernel:
`{TILE_DIM, BLOCK_COLS}`. -/
def local_work_size : ℕ × ℕ := (TILE_DIM, BLOCK_COLS)

/-- The global work size enqueued by the cross-layout kernel:
`{rows, cols * BLOCK_COLS / TILE_DIM}`. -/
def global_work_size_rc {α : Type} (m : Mat α) : ℕ × ℕ :=
  (m.size1, m.size2 * BLOCK_COLS / TILE_DIM)

/-- The work-group grid of the cross-layout kernel: global work size divided
by local work size in each dimension; `(get_group_id(0), get_group_id(1))`
ranges over this grid. -/
def gridGroups {α : Type} (m : Mat α) : ℕ × ℕ :=
  ((global_work_size_rc m).1 / local_work_size.1,
   (global_work_size_rc m).2 / local_work_size.2)

/-- The loop counter values of `for(uint i = 0; i < TILE_DIM; i += get_local_size(1))`
in the cross-layout kernel body: `0, BLOCK_COLS, 2*BLOCK_COLS, ...` below
TILE_DIM (the local size along dimension 1 is BLOCK_COLS). -/
def loopIdx : List ℕ :=
  (List.range (TILE_DIM / BLOCK_COLS)).map (fun t => t * BLOCK_COLS)

/-- The work-items `(get_local_id(0), get_local_id(1))` of one work-group of
the cross-layout kernel: the `{TILE_DIM, BLOCK_COLS}` local grid. -/
def localItems : List (ℕ × ℕ) := gridItems TILE_DIM BLOCK_COLS

/-- The staging phase of the cross-layout kernel, as written in the source:
every work-item `l` runs the loop over `loopIdx` and stores
`tile[get_local_id(1)+i][get_local_id(0)] = e(base_row+get_local_id(1)+i, base_row+get_local_id(1)+i)`
— the source builds both staging index expressions from the same string
`"base_row+get_local_id(1)+i"`.  Local memory starts uninitialized
(`default`); the barrier after the loop is modelled by the staging phase
completing before any write-back read. -/
def stageTile {α : Type} [Inhabited α] (e : Mat α) (base_row : ℕ) :
    ℕ → ℕ → α :=
  applyWrites
    (localItems.flatMap (fun l => loopIdx.map (fun i =>
      (l.2 + i, l.1, e.entry (base_row + l.2 + i) (base_row + l.2 + i)))))
    (fun _ _ => default)

/-- The write-back phase of the cross-layout kernel for the work-group
`(g0, g1)`: with `base_row = g0 * TILE_DIM` and `base_col = g1 * TILE_DIM`,
every work-item `l` runs the loop over `loopIdx` and performs
`m(base_row+get_local_id(0), base_col+get_local_id(1)+i) = f(target, tile[get_local_id(0)][get_local_id(1)+i])`. -/
def groupWrites {α : Type} [Inhabited α] (f : α → α → α) (m e : Mat α)
    (g0 g1 : ℕ) : List (ℕ × ℕ × α) :=
  let base_row := g0 * TILE_DIM
  let base_col := g1 * TILE_DIM
  let tile := stageTile e base_row
  localItems.flatMap (fun l => loopIdx.map (fun i =>
    (base_row + l.1, base_col + l.2 + i,
      f (m.entry (base_row + l.1) (base_col + l.2 + i)) (tile l.1 (l.2 + i)))))

/-- Enqueue of the compiled cross-layout kernel: every work-group of the
`gridGroups` grid contributes its write-back writes, applied to the
destination buffer. -/
def runCrossKernel {α : Type} [Inhabited α] (f : α → α → α) (m e : Mat α) :
    Mat α :=
  ⟨m.size1, m.size2,
    applyWrites
      ((gridItems (gridGroups m).1 (gridGroups m).2).flatMap
        (fun g => groupWrites f m e g.1 g.2))
      m.entry⟩

/-- Outcome of a guarded GPU assignment call: `errored` records a fail-fast
SIZE_CHECK violation, `m` the destination state afterwards. -/
structure AssignOut (α : Type) where
  errored : Bool
  m : Mat α

/-- The row-major/column-major overload of matrix_assign_functor:
`SIZE_CHECK(m().size1() % TILE_DIM == 0)` and
`SIZE_CHECK(m().size2() % TILE_DIM == 0)` first, and only then kernel
generation, compilation and enqueue. -/
def matrix_assign_functor_rc {α : Type} [Inhabited α] (f : α → α → α)
    (m e : Mat α) : AssignOut α :=
  if m.size1 % TILE_DIM = 0 then
    if m.size2 % TILE_DIM = 0 then
      ⟨false, runCrossKernel f m e⟩
    else ⟨true, m⟩
  else ⟨true, m⟩

/-! ## Plain assignment entry points -/

/-- detail::assigner of matrix_assign.hpp: `operator()(Arg1 const&, Arg2 const& y)`
returns `y`, ignoring its first argument. -/
def assigner {α β : Type} (x : α) (y : β) : β := y

/-- The same-layout plain-assignment entry point matrix_assign (row_major,
row_major): matrix_assign_functor instantiated with detail::assigner. -/
def matrix_assign_rr {α : Type} (m e : Mat α) : Mat α :=
  matrix_assign_functor_rr assigner m e

/-- The cross-layout plain-assignment entry point matrix_assign (row_major,
column_major): matrix_assign_functor instantiated with detail::assigner. -/
def matrix_assign_rc {α : Type} [Inhabited α] (m e : Mat α) : AssignOut α :=
  matrix_assign_functor_rc assigner m e

/-! ## Concrete instances used by the claims -/

/-- The lower-triangular matrix [[2,0],[3,4]] of the spec scenario. -/
def lowerA : Mat ℚ :=
  ⟨2, 2, fun i j =>
    if i = 0 then (if j = 0 then 2 else 0) else (if j = 0 then 3 else 4)⟩

/-- The right-hand side [4,23] of the lower-triangular spec scenario. -/
def lowerB : Vec ℚ := ⟨2, fun i => if i = 0 then 4 else 23⟩

/-- The upper-triangular unit matrix [[1,5],[0,1]] of the spec scenario. -/
def upperA : Mat ℚ :=
  ⟨2, 2, fun i j =>
    if i = 0 then (if j = 0 then 1 else 5) else (if j = 0 then 0 else 1)⟩

/-- The right-hand side [11,3] of the upper-triangular spec scenario. -/
def upperB : Vec ℚ := ⟨2, fun i => if i = 0 then 11 else 3⟩

/-- A 2×2 lower-triangular matrix whose diagonal is all zero (would divide
by zero if read) and whose off-diagonal entries are 3. -/
def diagZeroA : Mat ℚ := ⟨2, 2, fun i j => if i = j then 0 else 3⟩

/-- The same matrix as `diagZeroA` with the diagonal replaced by 1. -/
def diagOneA : Mat ℚ := ⟨2, 2, fun i j => if i = j then 1 else 3⟩

/-- A length-2 right-hand side [5,7] for the unit-diagonal comparison. -/
def unitB : Vec ℚ := ⟨2, fun i => if i = 0 then 5 else 7⟩

/-- A non-square 2×3 matrix for the dimension-mismatch scenario. -/
def rectA : Mat ℚ := ⟨2, 3, fun _ _ => 0⟩

/-- An all-zero 32×32 integer destination matrix. -/
def zero32 : Mat ℤ := ⟨32, 32, fun _ _ => 0⟩

/-- A 32×32 integer source matrix whose entry at (i,j) is j, so that its
rows are not constant. -/
def colIdx32 : Mat ℤ := ⟨32, 32, fun _ j => (j : ℤ)⟩

/-- A 50×50 all-zero integer matrix: a shape not divisible by TILE_DIM. -/
def zero50 : Mat ℤ := ⟨50, 50, fun _ _ => 0⟩

/-- A 64×64 all-zero integer matrix: a shape divisible by TILE_DIM. -/
def zero64 : Mat ℤ := ⟨64, 64, fun _ _ => 0⟩

/-- A 2×2 integer matrix with entries 10·i + j, used as a small same-layout
destination. -/
def small2 : Mat ℤ := ⟨2, 2, fun i j => 10 * (i : ℤ) + (j : ℤ)⟩

/-- A 2×2 integer matrix with entries 100 + i + 2·j, used as a small
same-layout source. -/
def small2src : Mat ℤ := ⟨2, 2, fun i j => 100 + (i : ℤ) + 2 * (j : ℤ)⟩

/-! ## Lemmas about the substitution folds -/

theorem trsvRowStep_ne (Upper Unit : Bool) (A : Mat ℚ) (n : ℕ) (b : ℕ → ℚ)
    (i j : ℕ) (h : j ≠ i) : trsvRowStep Upper Unit A n b i j = b j := by
  simp [trsvRowStep, h]

theorem dotRange_congr (A : Mat ℚ) (i : ℕ) (js : List ℕ) {b b2 : ℕ → ℚ}
    (h : ∀ j ∈ js, b j = b2 j) : dotRange A b i js = dotRange A b2 i js := by
  unfold dotRange
  congr 1
  exact List.map_congr_left (fun j hj => by rw [h j hj])

theorem lower_foldl_unchanged (Unit : Bool) (A : Mat ℚ) (n : ℕ) :
    ∀ (k : ℕ) (b : ℕ → ℚ) (j : ℕ), k ≤ j →
      (List.range k).foldl (trsvRowStep false Unit A n) b j = b j := by
  intro k
  induction k with
  | zero => intro b j _; rfl
  | succ k ih =>
    intro b j hj
    rw [List.range_succ, List.foldl_append, List.foldl_cons, List.foldl_nil]
    rw [trsvRowStep_ne _ _ _ _ _ _ _ (by omega)]
    exact ih b j (by omega)

theorem lower_foldl_entry (Unit : Bool) (A : Mat ℚ) (n : ℕ) :
    ∀ (k : ℕ) (b : ℕ → ℚ) (i : ℕ), i < k →
      (List.range k).foldl (trsvRowStep false Unit A n) b i =
        if Unit then
          b i - dotRange A ((List.range k).foldl (trsvRowStep false Unit A n) b) i (belowIdx i)
        else
          (b i - dotRange A ((List.range k).foldl (trsvRowStep false Unit A n) b) i (belowIdx i))
            / A.entry i i := by
  intro k
  induction k with
  | zero => intro b i h; omega
  | succ k ih =>
    intro b i hi
    rw [List.range_succ, List.foldl_append, List.foldl_cons, List.foldl_nil]
    by_cases hik : i = k
    · subst hik
      have h1 : dotRange A
          (trsvRowStep false Unit A n ((List.range i).foldl (trsvRowStep false Unit A n) b) i)
          i (belowIdx i) =
          dotRange A ((List.range i).foldl (trsvRowStep false Unit A n) b) i (belowIdx i) := by
        apply dotRange_congr
        intro j hj
        have hji : j < i := List.mem_range.mp hj
        exact trsvRowStep_ne _ _ _ _ _ _ _ (by omega)
      rw [h1]
      have h2 : (List.range i).foldl (trsvRowStep false Unit A n) b i = b i :=
        lower_foldl_unchanged Unit A n i b i (le_refl i)
      simp only [trsvRowStep, h2]
      simp
    · have hik2 : i < k := by omega
      have hstep : trsvRowStep false Unit A n
          ((List.range k).foldl (trsvRowStep false Unit A n) b) k i =
          (List.range k).foldl (trsvRowStep false Unit A n) b i :=
        trsvRowStep_ne _ _ _ _ _ _ _ hik
      have h1 : dotRange A
          (trsvRowStep false Unit A n ((List.range k).foldl (trsvRowStep false Unit A n) b) k)
          i (belowIdx i) =
          dotRange A ((List.range k).foldl (trsvRowStep false Unit A n) b) i (belowIdx i) := by
        apply dotRange_congr
        intro j hj
        have hji : j < i := List.mem_range.mp hj
        exact trsvRowStep_ne _ _ _ _ _ _ _ (by omega)
      rw [hstep, h1]
      exact ih b i hik2

theorem reverse_range_succ (m : ℕ) :
    (List.range (m + 1)).reverse = m :: (List.range m).reverse := by
  rw [List.range_succ, List.reverse_append]
  rfl

theorem upper_foldl_unchanged (Unit : Bool) (A : Mat ℚ) (n : ℕ) :
    ∀ (m : ℕ) (b : ℕ → ℚ) (j : ℕ), m ≤ j →
      ((List.range m).reverse).foldl (trsvRowStep true Unit A n) b j = b j := by
  intro m
  induction m with
  | zero => intro b j _; rfl
  | succ m ih =>
    intro b j hj
    rw [reverse_range_succ, List.foldl_cons]
    rw [ih (trsvRowStep true Unit A n b m) j (by omega)]
    exact trsvRowStep_ne _ _ _ _ _ _ _ (by omega)

theorem upper_foldl_entry (Unit : Bool) (A : Mat ℚ) (n : ℕ) :
    ∀ (m : ℕ) (b : ℕ → ℚ) (i : ℕ), i < m →
      ((List.range m).reverse).foldl (trsvRowStep true Unit A n) b i =
        if Unit then
          b i - dotRange A (((List.range m).reverse).foldl (trsvRowStep true Unit A n) b) i
            (aboveIdx n i)
        else
          (b i - dotRange A (((List.range m).reverse).foldl (trsvRowStep true Unit A n) b) i
            (aboveIdx n i)) / A.entry i i := by
  intro m
  induction m with
  | zero => intro b i h; omega
  | succ m ih =>
    intro b i hi
    rw [reverse_range_succ, List.foldl_cons]
    by_cases him : i = m
    · subst him
      rw [upper_foldl_unchanged Unit A n i (trsvRowStep true Unit A n b i) i (le_refl i)]
      have h1 : dotRange A
          (((List.range i).reverse).foldl (trsvRowStep true Unit A n)
            (trsvRowStep true Unit A n b i)) i (aboveIdx n i) =
          dotRange A b i (aboveIdx n i) := by
        apply dotRange_congr
        intro j hj
        have hj2 : i + 1 ≤ j := (List.mem_range'_1.mp hj).1
        rw [upper_foldl_unchanged Unit A n i (trsvRowStep true Unit A n b i) j (by omega)]
        exact trsvRowStep_ne _ _ _ _ _ _ _ (by omega)
      rw [h1]
      simp only [trsvRowStep]
      simp
    · have hi2 : i < m := by omega
      rw [ih (trsvRowStep true Unit A n b m) i hi2]
      have hbi : trsvRowStep true Unit A n b m i = b i :=
        trsvRowStep_ne _ _ _ _ _ _ _ him
      rw [hbi]

/-! ## Claim theorems: triangular solve -/

/-- Claim C1: for a lower-triangular solve (Upper=false, Unit=false) the
default algorithm processes rows in increasing order, and each output entry
satisfies the forward-substitution recurrence
`x[i] = (b[i] - A[i][0..i)·x[0..i)) / A[i][i]`; on A = [[2,0],[3,4]] and
b = [4,23] the result is x = [2, 17/4]. -/
theorem trsv_lower_forward :
    (∀ (A : Mat ℚ) (b : Vec ℚ) (i : ℕ), i < b.size →
      (trsvDefault false false A b).entry i =
        (b.entry i -
          dotRange A (trsvDefault false false A b).entry i (belowIdx i)) / A.entry i i) ∧
    (trsvDefault false false lowerA lowerB).entry 0 = 2 ∧
    (trsvDefault false false lowerA lowerB).entry 1 = 17 / 4 := by
  refine ⟨?_, ?_, ?_⟩
  · intro A b i hi
    have h := lower_foldl_entry false A b.size b.size b.entry i hi
    simp only [Bool.false_eq_true, if_false] at h
    simpa [trsvDefault, rowOrder] using h
  · norm_num [trsvDefault, rowOrder, trsvRowStep, dotRange, belowIdx, lowerA, lowerB,
      List.range_succ]
  · norm_num [trsvDefault, rowOrder, trsvRowStep, dotRange, belowIdx, lowerA, lowerB,
      List.range_succ]

/-- Witness for C1: the recurrence instantiated at row 1 of the concrete
scenario. -/
theorem trsv_lower_forward_wit :
    1 < lowerB.size ∧
    (trsvDefault false false lowerA lowerB).entry 1 =
      (lowerB.entry 1 -
        dotRange lowerA (trsvDefault false false lowerA lowerB).entry 1 (belowIdx 1)) /
        lowerA.entry 1 1 :=
  ⟨by decide, trsv_lower_forward.1 lowerA lowerB 1 (by decide)⟩

/-- Claim C5: for an upper-triangular solve (Upper=true) the default
algorithm processes rows in decreasing order, each output entry depending
only on `b(i+1..n)` and `A[i][i+1..n)` (plus the diagonal when not Unit);
on A = [[1,5],[0,1]] with Unit=true and b = [11,3] the result is
x = [-4, 3]. -/
theorem trsv_upper_backward :
    (∀ (Unit : Bool) (A : Mat ℚ) (b : Vec ℚ) (i : ℕ), i < b.size →
      (trsvDefault true Unit A b).entry i =
        if Unit then
          b.entry i -
            dotRange A (trsvDefault true Unit A b).entry i (aboveIdx b.size i)
        else
          (b.entry i -
            dotRange A (trsvDefault true Unit A b).entry i (aboveIdx b.size i))
            / A.entry i i) ∧
    (trsvDefault true true upperA upperB).entry 0 = -4 ∧
    (trsvDefault true true upperA upperB).entry 1 = 3 := by
  refine ⟨?_, ?_, ?_⟩
  · intro Unit A b i hi
    have h := upper_foldl_entry Unit A b.size b.size b.entry i hi
    simpa [trsvDefault, rowOrder] using h
  · norm_num [trsvDefault, rowOrder, trsvRowStep, dotRange, aboveIdx, upperA, upperB,
      List.range_succ, List.range']
  · norm_num [trsvDefault, rowOrder, trsvRowStep, dotRange, aboveIdx, upperA, upperB,
      List.range_succ, List.range']

/-- Witness for C5: the recurrence instantiated at row 0 of the concrete
scenario. -/
theorem trsv_upper_backward_wit :
    0 < upperB.size ∧
    (trsvDefault true true upperA upperB).entry 0 =
      (if true then
        upperB.entry 0 -
          dotRange upperA (trsvDefault true true upperA upperB).entry 0
            (aboveIdx upperB.size 0)
      else
        (upperB.entry 0 -
          dotRange upperA (trsvDefault true true upperA upperB).entry 0
            (aboveIdx upperB.size 0)) / upperA.entry 0 0) :=
  ⟨by decide, trsv_upper_backward.1 true upperA upperB 0 (by decide)⟩

/-- Claim C3: with Unit=true the solve never uses the diagonal of A — two
coefficient matrices that agree off the diagonal (one with an all-zero
diagonal, one with a unit diagonal, say) produce identical results for
every right-hand side, for both Upper flags. -/
theorem trsv_unit_diag_independent (Upper : Bool) (A A2 : Mat ℚ) (b : Vec ℚ)
    (h : ∀ i j, i ≠ j → A.entry i j = A2.entry i j) :
    trsvDefault Upper true A b = trsvDefault Upper true A2 b := by
  have hdot : ∀ (c : ℕ → ℚ) (i : ℕ),
      dotRange A c i (if Upper then aboveIdx b.size i else belowIdx i) =
      dotRange A2 c i (if Upper then aboveIdx b.size i else belowIdx i) := by
    intro c i
    unfold dotRange
    congr 1
    apply List.map_congr_left
    intro j2 hj2
    have hne : i ≠ j2 := by
      cases Upper with
      | true =>
        simp only [if_pos] at hj2
        have := (List.mem_range'_1.mp hj2).1
        omega
      | false =>
        simp only [if_neg] at hj2
        have := List.mem_range.mp hj2
        omega
    rw [h i j2 hne]
  have hstep : trsvRowStep Upper true A b.size = trsvRowStep Upper true A2 b.size := by
    funext c i j
    simp only [trsvRowStep]
    rw [hdot c i]
    simp
  unfold trsvDefault
  rw [hstep]

/-- Witness for C3: a matrix with an all-zero diagonal (which would divide
by zero if the diagonal were read) gives the same Unit=true result as the
same matrix with a unit diagonal. -/
theorem trsv_unit_diag_independent_wit :
    trsvDefault false true diagZeroA unitB = trsvDefault false true diagOneA unitB :=
  trsv_unit_diag_independent false diagZeroA diagOneA unitB
    (by
      intro i j hij
      simp [diagZeroA, diagOneA, hij])

/-- Claim C6: kernels::trsv raises its fail-fast SIZE_CHECK error exactly
when A is not square or the sizes of A and b disagree, and in that case b
is left unchanged (the error fires before any binding is dispatched). -/
theorem trsv_size_check_spec (Upper Unit : Bool) (A : Mat ℚ) (b : Vec ℚ) :
    ((trsv Upper Unit A b).errored = true ↔ A.size1 ≠ A.size2 ∨ A.size1 ≠ b.size) ∧
    ((trsv Upper Unit A b).errored = true → (trsv Upper Unit A b).b = b) := by
  unfold trsv
  by_cases h1 : A.size1 = A.size2
  · rw [if_pos h1]
    by_cases h2 : A.size1 = b.size
    · rw [if_pos h2]
      simp [h1, h2]
      omega
    · rw [if_neg h2]
      simp [h2]
  · rw [if_neg h1]
    simp [h1]

/-- Witness for C6: the 2×3 matrix fails the squareness check, and the
right-hand side comes back unchanged. -/
theorem trsv_size_check_spec_wit :
    (trsv false false rectA unitB).errored = true ∧
    (trsv false false rectA unitB).b = unitB := by
  have h := trsv_size_check_spec false false rectA unitB
  have he : (trsv false false rectA unitB).errored = true :=
    h.1.mpr (Or.inl (by decide))
  exact ⟨he, h.2 he⟩

/-- Claim C8: the capability trait has_optimized_trsv defaults to false for
every pair of expression types, and kernels::trsv on size-conforming
operands dispatches (false tag) to the default substitution algorithm
rather than erroring or calling an external routine. -/
theorem trsv_dispatch_default (MatA V : Type) (Upper Unit : Bool)
    (A : Mat ℚ) (b : Vec ℚ) (h1 : A.size1 = A.size2) (h2 : A.size1 = b.size) :
    has_optimized_trsv MatA V = false ∧
    trsv Upper Unit A b = ⟨false, trsvDefault Upper Unit A b⟩ := by
  refine ⟨rfl, ?_⟩
  unfold trsv
  rw [if_pos h1, if_pos h2]

/-- Witness for C8: the trait is false at a pair of concrete types and the
dispatcher lands in the default algorithm on the concrete lower scenario. -/
theorem trsv_dispatch_default_wit :
    has_optimized_trsv (Mat ℚ) (Vec ℚ) = false ∧
    trsv false false lowerA lowerB = ⟨false, trsvDefault false false lowerA lowerB⟩ :=
  trsv_dispatch_default (Mat ℚ) (Vec ℚ) false false lowerA lowerB rfl rfl

/-! ## Lemmas about write lists -/

theorem applyWrites_cons {α : Type} (w : ℕ × ℕ × α) (ws : List (ℕ × ℕ × α))
    (g : ℕ → ℕ → α) :
    applyWrites (w :: ws) g =
      applyWrites ws (fun i j => if i = w.1 ∧ j = w.2.1 then w.2.2 else g i j) := rfl

theorem applyWrites_of_forall_ne {α : Type} :
    ∀ (ws : List (ℕ × ℕ × α)) (g : ℕ → ℕ → α) (i j : ℕ),
      (∀ w ∈ ws, ¬(i = w.1 ∧ j = w.2.1)) → applyWrites ws g i j = g i j := by
  intro ws
  induction ws with
  | nil => intro g i j _; rfl
  | cons w ws ih =>
    intro g i j h
    rw [applyWrites_cons]
    rw [ih _ i j (fun w2 hw2 => h w2 (List.mem_cons_of_mem w hw2))]
    simp only [if_neg (h w (List.mem_cons_self w ws))]

theorem applyWrites_lookup {α : Type} :
    ∀ (ws : List (ℕ × ℕ × α)) (g : ℕ → ℕ → α) (i j : ℕ) (v : α),
      (i, j, v) ∈ ws →
      (∀ w ∈ ws, w.1 = i → w.2.1 = j → w.2.2 = v) →
      applyWrites ws g i j = v := by
  intro ws
  induction ws with
  | nil => intro g i j v hmem _; exact absurd hmem (List.not_mem_nil _)
  | cons w ws ih =>
    intro g i j v hmem huniq
    rw [applyWrites_cons]
    by_cases hrest : ∃ w2 ∈ ws, w2.1 = i ∧ w2.2.1 = j
    · obtain ⟨w2, hw2mem, hk1, hk2⟩ := hrest
      have hv : w2.2.2 = v := huniq w2 (List.mem_cons_of_mem w hw2mem) hk1 hk2
      have hmem2 : (i, j, v) ∈ ws := by
        have hw2 : w2 = (i, j, v) := by
          obtain ⟨a, b2, c⟩ := w2
          simp only at hk1 hk2 hv
          rw [hk1, hk2, hv]
        rw [← hw2]
        exact hw2mem
      exact ih _ i j v hmem2 (fun w3 hw3 => huniq w3 (List.mem_cons_of_mem w hw3))
    · have hnmem : ∀ w2 ∈ ws, ¬(i = w2.1 ∧ j = w2.2.1) := by
        intro w2 hw2 hc
        exact hrest ⟨w2, hw2, hc.1.symm, hc.2.symm⟩
      have hw : w = (i, j, v) := by
        rcases List.mem_cons.mp hmem with h1 | h2
        · exact h1.symm
        · exact absurd ⟨(i, j, v), h2, rfl, rfl⟩ hrest
      rw [applyWrites_of_forall_ne ws _ i j hnmem, hw]
      simp

theorem mem_gridItems {n1 n2 : ℕ} {p : ℕ × ℕ} :
    p ∈ gridItems n1 n2 ↔ p.1 < n1 ∧ p.2 < n2 := by
  obtain ⟨a, b⟩ := p
  simp [gridItems]

theorem grid_map_entry {α : Type} (wf : ℕ → ℕ → α) (g : ℕ → ℕ → α) (n1 n2 i j : ℕ) :
    applyWrites ((gridItems n1 n2).map (fun p => (p.1, p.2, wf p.1 p.2))) g i j =
      if i < n1 ∧ j < n2 then wf i j else g i j := by
  by_cases hb : i < n1 ∧ j < n2
  · rw [if_pos hb]
    apply applyWrites_lookup
    · exact List.mem_map.mpr ⟨(i, j), mem_gridItems.mpr ⟨hb.1, hb.2⟩, rfl⟩
    · intro w hw hk1 hk2
      obtain ⟨p, hp, hpe⟩ := List.mem_map.mp hw
      rw [← hpe] at hk1 hk2 ⊢
      simp only at hk1 hk2 ⊢
      rw [hk1, hk2]
  · rw [if_neg hb]
    apply applyWrites_of_forall_ne
    intro w hw hc
    obtain ⟨p, hp, hpe⟩ := List.mem_map.mp hw
    have hpb := mem_gridItems.mp hp
    rw [← hpe] at hc
    simp only at hc
    exact hb ⟨by rw [hc.1]; exact hpb.1, by rw [hc.2]; exact hpb.2⟩

/-! ## Claim theorems: GPU matrix assignment -/

/-- Claim C4: the same-layout (row-major, row-major) matrix_assign_functor
enqueues a global work-size grid of exactly (rows, columns), and every
destination element within the grid becomes F applied to the old
destination element and the same-coordinate source element — the naive
per-element interpreted assignment. -/
theorem same_layout_assign_spec (γ : Type) (f : γ → γ → γ) (m e : Mat γ) :
    global_work_size_rr m = (m.size1, m.size2) ∧
    (matrix_assign_functor_rr f m e).size1 = m.size1 ∧
    (matrix_assign_functor_rr f m e).size2 = m.size2 ∧
    (∀ i j, i < m.size1 → j < m.size2 →
      (matrix_assign_functor_rr f m e).entry i j = f (m.entry i j) (e.entry i j)) := by
  refine ⟨rfl, rfl, rfl, ?_⟩
  intro i j hi hj
  simp only [matrix_assign_functor_rr, global_work_size_rr]
  have h := grid_map_entry (fun a b2 => f (m.entry a b2) (e.entry a b2)) m.entry
    m.size1 m.size2 i j
  rw [if_pos ⟨hi, hj⟩] at h
  exact h

/-- Witness for C4: the 2×2 same-layout add-assign at entry (1,1). -/
theorem same_layout_assign_spec_wit :
    global_work_size_rr small2 = (small2.size1, small2.size2) ∧
    (matrix_assign_functor_rr (fun x y => x + y) small2 small2src).entry 1 1 =
      small2.entry 1 1 + small2src.entry 1 1 := by
  have h := same_layout_assign_spec ℤ (fun x y => x + y) small2 small2src
  exact ⟨h.1, h.2.2.2 1 1 (by decide) (by decide)⟩

/-- Claim C2 (evaluation at the failing input): on 32×32 operands the
cross-layout tiled kernel as written does not reproduce the elementwise
assignment.  With F = addition, destination all zero and source
e(i,j) = j, the shape checks pass, but the staged kernel leaves entry
(0,1) at 0 — it stages e(base_row+lid1+i, base_row+lid1+i), the source
building both staging indices from the same row expression — while the
elementwise assignment F(m(0,1), e(0,1)) yields 1. -/
theorem cross_layout_staging_defect :
    (matrix_assign_functor_rc (fun x y : ℤ => x + y) zero32 colIdx32).errored = false ∧
    (matrix_assign_functor_rc (fun x y : ℤ => x + y) zero32 colIdx32).m.entry 0 1 = 0 ∧
    (fun x y : ℤ => x + y) (zero32.entry 0 1) (colIdx32.entry 0 1) = 1 := by
  refine ⟨by decide, by decide, by decide⟩

/-- Claim C9: detail::assigner returns its second argument for all argument
types, and both plain-assignment entry points are matrix_assign_functor
instantiated with it; on the same-layout path the destination therefore
becomes an elementwise copy of the source, but on the cross-layout path the
staging defect makes entry (0,1) equal e(0,0) = 0 instead of the
corresponding source element e(0,1) = 1. -/
theorem plain_assign_is_assigner :
    (∀ (A B : Type) (x : A) (y : B), assigner x y = y) ∧
    (∀ (γ : Type) (m e : Mat γ),
      matrix_assign_rr m e = matrix_assign_functor_rr assigner m e) ∧
    (∀ (γ : Type) (ig : Inhabited γ) (m e : Mat γ),
      @matrix_assign_rc γ ig m e = @matrix_assign_functor_rc γ ig assigner m e) ∧
    (∀ (γ : Type) (m e : Mat γ) (i j : ℕ), i < m.size1 → j < m.size2 →
      (matrix_assign_rr m e).entry i j = e.entry i j) ∧
    (matrix_assign_rc zero32 colIdx32).m.entry 0 1 = 0 ∧
    colIdx32.entry 0 1 = 1 := by
  refine ⟨fun A B x y => rfl, fun γ m e => rfl, fun γ ig m e => rfl, ?_, by decide, by decide⟩
  intro γ m e i j hi hj
  simp only [matrix_assign_rr, matrix_assign_functor_rr, global_work_size_rr]
  have h := grid_map_entry (fun a b2 => assigner (m.entry a b2) (e.entry a b2)) m.entry
    m.size1 m.size2 i j
  rw [if_pos ⟨hi, hj⟩] at h
  exact h

/-- Claim C7: the cross-layout path raises its fail-fast SIZE_CHECK error
exactly when a destination dimension is not divisible by TILE_DIM = 32, and
on error the destination is untouched (nothing was generated or
enqueued). -/
theorem cross_tile_size_check (γ : Type) (ig : Inhabited γ) (f : γ → γ → γ)
    (m e : Mat γ) :
    ((@matrix_assign_functor_rc γ ig f m e).errored = true ↔
      ¬(m.size1 % TILE_DIM = 0) ∨ ¬(m.size2 % TILE_DIM = 0)) ∧
    ((@matrix_assign_functor_rc γ ig f m e).errored = true →
      (@matrix_assign_functor_rc γ ig f m e).m = m) := by
  unfold matrix_assign_functor_rc
  by_cases h1 : m.size1 % TILE_DIM = 0
  · rw [if_pos h1]
    by_cases h2 : m.size2 % TILE_DIM = 0
    · rw [if_pos h2]
      simp [h1, h2]
    · rw [if_neg h2]
      simp [h2]
  · rw [if_neg h1]
    simp [h1]

/-- Witness for C7: a 50×50 shape is rejected with the destination
unchanged, while a 64×64 shape passes the checks. -/
theorem cross_tile_size_check_wit :
    (matrix_assign_functor_rc (fun x y : ℤ => y) zero50 zero50).errored = true ∧
    (matrix_assign_functor_rc (fun x y : ℤ => y) zero50 zero50).m = zero50 ∧
    (matrix_assign_functor_rc (fun x y : ℤ => y) zero64 zero64).errored = false := by
  have h50 := cross_tile_size_check ℤ inferInstance (fun x y => y) zero50 zero50
  have h64 := cross_tile_size_check ℤ inferInstance (fun x y => y) zero64 zero64
  have he : (matrix_assign_functor_rc (fun x y : ℤ => y) zero50 zero50).errored = true :=
    h50.1.mpr (Or.inl (by decide))
  refine ⟨he, h50.2 he, ?_⟩
  have hnot : ¬((matrix_assign_functor_rc (fun x y : ℤ => y) zero64 zero64).errored = true) := by
    intro hc
    have := h64.1.mp hc
    rcases this with hbad | hbad
    · exact hbad (by decide)
    · exact hbad (by decide)
  exact Bool.not_eq_true _ |>.mp hnot

/-- Claim C10: BLOCK_COLS divides TILE_DIM and the local work size is
(TILE_DIM, BLOCK_COLS); for each work-item the staging-loop index
lid1 + i takes exactly TILE_DIM/BLOCK_COLS distinct values, all below
TILE_DIM, the work-group's loop iterations jointly cover every tile row
index exactly once, and every local-buffer access stays inside the declared
tile bounds (row < TILE_DIM, column < TILE_DIM + 1). -/
theorem cross_tile_indexing :
    TILE_DIM % BLOCK_COLS = 0 ∧
    local_work_size = (TILE_DIM, BLOCK_COLS) ∧
    (∀ lid1 ∈ List.range BLOCK_COLS,
      (loopIdx.map (fun i => lid1 + i)).length = TILE_DIM / BLOCK_COLS ∧
      (loopIdx.map (fun i => lid1 + i)).Nodup ∧
      (∀ r ∈ loopIdx.map (fun i => lid1 + i), r < TILE_DIM)) ∧
    (∀ r ∈ List.range TILE_DIM,
      ((List.range BLOCK_COLS).flatMap (fun lid1 => loopIdx.map (fun i => lid1 + i))).count r
        = 1) ∧
    (∀ l ∈ localItems, ∀ i ∈ loopIdx,
      l.2 + i < TILE_DIM ∧ l.1 < TILE_DIM + 1 ∧ l.1 < TILE_DIM ∧ l.2 + i < TILE_DIM + 1) := by
  decide

end Shark
